import Mathlib

/-!
Verification of the hand-over-hand locking linked list (the core of this
repository).  The source is a single C++ file containing a verbose
reader-writer lock wrapper (`verbose_mutex`), a singly linked list of
strings with a sentinel node, a single-threaded builder (`list_add`,
`populate_list`) and the hand-over-hand `lookup` routine.

The embedding below is a shallow one:

* a `Node` is a record of its immutable payload (`element`, the
  `std::string` field) and its `next` pointer; pointers are modelled as
  indices into an arena (`Heap := List Node`), with the sentinel node at
  index 0 and `none` standing for `nullptr`;
* `lookup` is translated into a pure function that, besides the returned
  node, produces the sequence of lock events (shared acquire, shared
  release, exclusive acquire) and pointer reads that the C++ code
  performs, in source order, so that the locking discipline can be
  stated and proved as a property of that event trace;
* the three `std::runtime_error` throws of `lookup` are mapped to the
  error taxonomy of the specification: the throw with message
  "lookup: list is empty" to `Err.emptyChain`, "lookup: invalid
  argument" to `Err.invalidIndex`, and "lookup: list too short" to
  `Err.indexOutOfRange`;
* the static counter of `verbose_mutex` is an `unsigned int`
  (32 bits), so the serial numbers it hands out are modelled modulo
  `2 ^ 32`.
-/

namespace HandOverHand

/-- Lock and pointer-read events emitted by `lookup`, in source order.
`acqS i` is a shared acquire of the mutex of node `i`
(`std::shared_lock` construction), `relS i` the matching release
(destructor), `acqX i` an exclusive acquire (`std::unique_lock`
construction; the exclusive lock is handed to the caller and released
outside of `lookup`), and `readNext i` a read of the `next` field of
node `i`. -/
inductive Ev : Type where
  | acqS : Nat → Ev
  | relS : Nat → Ev
  | acqX : Nat → Ev
  | readNext : Nat → Ev
deriving DecidableEq, Repr

/-- Error taxonomy of `lookup`, one constructor per `throw` in the
source: `emptyChain` for "lookup: list is empty", `invalidIndex` for
"lookup: invalid argument", `indexOutOfRange` for "lookup: list too
short". -/
inductive Err : Type where
  | emptyChain : Err
  | invalidIndex : Err
  | indexOutOfRange : Err
deriving DecidableEq, Repr

/-- The node record of the source (`struct node`): an immutable string
payload (`element`) and a pointer to the successor (`next`,
`nullptr` modelled as `none`).  The per-node mutex is not a field here;
a lock on node `i` is identified by the index `i` in the event trace. -/
structure Node : Type where
  element : String
  next : Option Nat
deriving DecidableEq, Repr

/-- The arena of allocated nodes.  Index 0 is the sentinel node
(`static node *list` points at it); a pointer is an index, `none` is
`nullptr`. -/
abbrev Heap : Type := List Node

/-- Dereference the `next` field of node `i` (the C++ expression
`p->next` for the pointer `p = i`). -/
def getNext (h : Heap) (i : Nat) : Option Nat :=
  (h.get? i).bind Node.next

/-- The tail-finding loop of `list_add`
(`while (insert_point->next) insert_point = insert_point->next;`).
The `fuel` argument bounds the number of steps so that the function is
total on arbitrary heaps; on every heap built by `list_add` the tail is
reached before the fuel (the heap size) runs out. -/
def findTail (h : Heap) (fuel : Nat) (cur : Nat) : Nat :=
  match fuel with
  | 0 => cur
  | f + 1 =>
    match getNext h cur with
    | some nx => findTail h f nx
    | none => cur

/-- Replace node `i` of the heap by `f` applied to it (a store through
a node pointer). -/
def modifyNode (h : Heap) (i : Nat) (f : Node → Node) : Heap :=
  match h, i with
  | [], _ => []
  | nd :: rest, 0 => f nd :: rest
  | nd :: rest, j + 1 => nd :: modifyNode rest j f

/-- The builder `list_add`: allocate a new node holding `s` (its
address is the next free arena index), walk from the sentinel to the
last node, and link the new node behind it. -/
def list_add (h : Heap) (s : String) : Heap :=
  modifyNode h (findTail h h.length 0)
      (fun nd => Node.mk nd.element (some h.length)) ++ [Node.mk s none]

/-- Building a chain: `main` first allocates the sentinel
(`list = new node("")`), then `populate_list` appends each payload in
order with `list_add`. -/
def buildChain (vs : List String) : Heap :=
  vs.foldl list_add [Node.mk "" none]

/-- The nine words that `populate_list` extracts from
"The quick brown fox jumped over the lazy dog" with `operator>>`. -/
def nineWords : List String :=
  ["The", "quick", "brown", "fox", "jumped", "over", "the", "lazy", "dog"]

/-- Result of a `lookup` call: the returned node index or the error
thrown (`res`), the emitted lock and pointer-read events in order
(`trace`), the state of the caller lock handle after the call
(`lockOut`, holding the index of the node whose mutex it owns
exclusively), and the heap after the call (`heap`). -/
structure LookupOut : Type where
  res : Except Err Nat
  trace : List Ev
  lockOut : Option Nat
  heap : Heap

/-- The hand-over-hand traversal loop of `lookup` (`while (--n)`).
On entry `read_lock` holds a shared lock on node `cur` and `result`
points at node `resId`, the successor of `cur`; `steps` is the number
of loop iterations still to run (the C++ `n - 1`).  Each iteration
acquires a shared lock on `resId` (`next_lock`), swaps the two lock
handles (no lock event), advances `result` by reading the `next` field
of `resId`, and on normal exit of the iteration releases the lock on
`cur` (the `next_lock` destructor).  If the advance reads `nullptr`
the function throws "lookup: list too short"; the unwinding destroys
`next_lock` (releasing `cur`) and then `read_lock` (releasing
`resId`).  After the last iteration the target `resId` is locked
exclusively (`result_lock`) and the shared lock on its predecessor
`cur` is released when `read_lock` leaves scope. -/
def walk (h : Heap) : Nat → Nat → Nat → List Ev × Except Err Nat
  | cur, resId, 0 =>
    ([Ev.acqX resId, Ev.relS cur], Except.ok resId)
  | cur, resId, steps + 1 =>
    match getNext h resId with
    | some nxt =>
      ((Ev.acqS resId :: Ev.readNext resId :: Ev.relS cur ::
          (walk h resId nxt steps).1),
        (walk h resId nxt steps).2)
    | none =>
      ([Ev.acqS resId, Ev.readNext resId, Ev.relS cur, Ev.relS resId],
        Except.error Err.indexOutOfRange)

/-- The `lookup` routine.  It acquires a shared lock on the sentinel
(`read_lock`), reads the sentinel `next` field under that lock, throws
"lookup: list is empty" if it is null, then throws "lookup: invalid
argument" if `n` is zero or the caller handle already owns a lock
(`lock.owns_lock()`); in both failure cases the unwinding releases the
sentinel lock.  Otherwise it runs the hand-over-hand loop `n - 1`
times and, on success, moves the exclusive lock on the target into the
caller handle (`lock.swap(result_lock)`).  The heap is returned
unchanged: the body of `lookup` contains no store to any node field. -/
def lookup (h : Heap) (n : Nat) (lockArg : Option Nat) : LookupOut :=
  match getNext h 0 with
  | none =>
    LookupOut.mk (Except.error Err.emptyChain)
      [Ev.acqS 0, Ev.readNext 0, Ev.relS 0] lockArg h
  | some first =>
    if n = 0 ∨ lockArg.isSome then
      LookupOut.mk (Except.error Err.invalidIndex)
        [Ev.acqS 0, Ev.readNext 0, Ev.relS 0] lockArg h
    else
      match (walk h 0 first (n - 1)).2 with
      | Except.ok i =>
        LookupOut.mk (Except.ok i)
          (Ev.acqS 0 :: Ev.readNext 0 :: (walk h 0 first (n - 1)).1)
          (some i) h
      | Except.error e =>
        LookupOut.mk (Except.error e)
          (Ev.acqS 0 :: Ev.readNext 0 :: (walk h 0 first (n - 1)).1)
          lockArg h

/-- The serial number assigned by the `verbose_mutex` constructor to
the i-th lock constructed in the process: the static counter `number`
starts at 0 and is post-incremented at each construction; it is an
`unsigned int`, hence wraps modulo `2 ^ 32`. -/
def serialNum (i : Nat) : Nat := i % 2 ^ 32

/-! ## Held-lock accounting

The set of locks a call holds at a point of its trace is recovered by
replaying the events.  A held lock is a pair of the node index and the
mode (`true` for exclusive, `false` for shared). -/

/-- Remove one record equal to `x` from the list of held locks (the
effect of a release on the held-lock multiset). -/
def removeHeld (held : List (Nat × Bool)) (x : Nat × Bool) :
    List (Nat × Bool) :=
  match held with
  | [] => []
  | y :: ys => if y = x then ys else y :: removeHeld ys x

/-- Effect of one event on the multiset of locks held by the call. -/
def applyEv (held : List (Nat × Bool)) : Ev → List (Nat × Bool)
  | Ev.acqS i => (i, false) :: held
  | Ev.acqX i => (i, true) :: held
  | Ev.relS i => removeHeld held (i, false)
  | Ev.readNext _ => held

/-- The locks held after replaying a trace from the held-lock multiset
`held`. -/
def heldAfter (held : List (Nat × Bool)) (tr : List Ev) :
    List (Nat × Bool) :=
  tr.foldl applyEv held

/-- Whether a result is a success. -/
def resOk (r : Except Err Nat) : Bool :=
  match r with
  | Except.ok _ => true
  | Except.error _ => false

/-! ## Trace monitors

Each locking-discipline property is phrased as a boolean monitor that
replays the trace while maintaining the held-lock multiset and checks
the property at every event. -/

/-- Monitor: after every event the call holds at most two locks. -/
def chkAtMostTwo (held : List (Nat × Bool)) : List Ev → Bool
  | [] => true
  | e :: es =>
    decide ((applyEv held e).length ≤ 2) && chkAtMostTwo (applyEv held e) es

/-- Monitor: after every event other than the last one of the trace the
call still holds at least one lock (lock coverage never drops to zero
before the call returns or the error propagates). -/
def chkCover (held : List (Nat × Bool)) : List Ev → Bool
  | [] => true
  | e :: es =>
    (es.isEmpty || !(applyEv held e).isEmpty) && chkCover (applyEv held e) es

/-- Monitor: every read of the `next` field of a node happens while the
call holds a lock on that same node. -/
def chkReads (held : List (Nat × Bool)) : List Ev → Bool
  | [] => true
  | e :: es =>
    (match e with
     | Ev.readNext i => held.any (fun q => q.1 == i)
     | _ => true) && chkReads (applyEv held e) es

/-- Monitor for the hand-over-hand overlap discipline: whenever a
shared lock on a node `p` is released before the end of the trace, the
call already holds a lock on the successor of `p` (the node its `next`
field points to); the two held-lock regions of predecessor and
successor therefore always overlap.  The releases that end the call
(the last event of the trace) are exempt. -/
def chkOverlap (h : Heap) (held : List (Nat × Bool)) : List Ev → Bool
  | [] => true
  | e :: es =>
    (match e with
     | Ev.relS p =>
       es.isEmpty ||
         (match getNext h p with
          | some q => held.any (fun r => r.1 == q)
          | none => false)
     | _ => true) && chkOverlap h (applyEv held e) es

/-! ## Basic lemmas -/

theorem removeHeld_two (p q : Nat × Bool) : removeHeld [p, q] q = [p] := by
  by_cases hpq : p = q
  · subst hpq
    simp [removeHeld]
  · simp [removeHeld, hpq]

theorem removeHeld_one (q : Nat × Bool) : removeHeld [q] q = [] := by
  simp [removeHeld]

/-! ## Monitor lemmas about the traversal loop

Each lemma is an induction over the number of remaining loop
iterations; the entry state of the loop holds exactly the shared lock
on the node `cur` whose `next` field points at `resId`. -/

theorem walk_chkAtMostTwo (h : Heap) :
    ∀ steps cur resId,
      chkAtMostTwo [(cur, false)] (walk h cur resId steps).1 = true := by
  intro steps
  induction steps with
  | zero =>
    intro cur resId
    simp [walk, chkAtMostTwo, applyEv, removeHeld_two]
  | succ s ih =>
    intro cur resId
    cases hg : getNext h resId with
    | none =>
      simp [walk, hg, chkAtMostTwo, applyEv, removeHeld_two, removeHeld_one]
    | some nxt =>
      simp only [walk, hg, chkAtMostTwo, applyEv, removeHeld_two]
      simp only [List.length_cons, List.length_singleton]
      simp [ih resId nxt]

theorem walk_chkCover (h : Heap) :
    ∀ steps cur resId,
      chkCover [(cur, false)] (walk h cur resId steps).1 = true := by
  intro steps
  induction steps with
  | zero =>
    intro cur resId
    simp [walk, chkCover, applyEv, removeHeld_two]
  | succ s ih =>
    intro cur resId
    cases hg : getNext h resId with
    | none =>
      simp [walk, hg, chkCover, applyEv, removeHeld_two, removeHeld_one]
    | some nxt =>
      simp only [walk, hg, chkCover, applyEv, removeHeld_two]
      simp [ih resId nxt]

theorem walk_chkReads (h : Heap) :
    ∀ steps cur resId,
      chkReads [(cur, false)] (walk h cur resId steps).1 = true := by
  intro steps
  induction steps with
  | zero =>
    intro cur resId
    simp [walk, chkReads, applyEv, removeHeld_two]
  | succ s ih =>
    intro cur resId
    cases hg : getNext h resId with
    | none =>
      simp [walk, hg, chkReads, applyEv, removeHeld_two, removeHeld_one]
    | some nxt =>
      simp only [walk, hg, chkReads, applyEv, removeHeld_two]
      simp [ih resId nxt]

theorem walk_chkOverlap (h : Heap) :
    ∀ steps cur resId, getNext h cur = some resId →
      chkOverlap h [(cur, false)] (walk h cur resId steps).1 = true := by
  intro steps
  induction steps with
  | zero =>
    intro cur resId _
    simp [walk, chkOverlap, applyEv, removeHeld_two]
  | succ s ih =>
    intro cur resId hcur
    cases hg : getNext h resId with
    | none =>
      simp [walk, hg, chkOverlap, applyEv, removeHeld_two, removeHeld_one,
        hcur]
    | some nxt =>
      simp only [walk, hg, chkOverlap, applyEv, removeHeld_two, hcur]
      simp [ih resId nxt hg]

/-- On a failing traversal every lock acquired by the loop has been
released once the trace is over. -/
theorem walk_err_held (h : Heap) :
    ∀ steps cur resId e, (walk h cur resId steps).2 = Except.error e →
      heldAfter [(cur, false)] (walk h cur resId steps).1 = [] := by
  intro steps
  induction steps with
  | zero =>
    intro cur resId e he
    simp [walk] at he
  | succ s ih =>
    intro cur resId e he
    cases hg : getNext h resId with
    | none =>
      simp [walk, hg, heldAfter, applyEv, removeHeld_two, removeHeld_one]
    | some nxt =>
      simp only [walk, hg] at he ⊢
      simp only [heldAfter, List.foldl_cons, applyEv, removeHeld_two]
      exact ih resId nxt e he

/-- On a successful traversal the only lock still held at the end of
the trace is the exclusive lock on the returned node. -/
theorem walk_ok_held (h : Heap) :
    ∀ steps cur resId i, (walk h cur resId steps).2 = Except.ok i →
      heldAfter [(cur, false)] (walk h cur resId steps).1 = [(i, true)] := by
  intro steps
  induction steps with
  | zero =>
    intro cur resId i hi
    simp only [walk, Except.ok.injEq] at hi
    subst hi
    simp [walk, heldAfter, applyEv, removeHeld_two]
  | succ s ih =>
    intro cur resId i hi
    cases hg : getNext h resId with
    | none =>
      simp [walk, hg] at hi
    | some nxt =>
      simp only [walk, hg] at hi ⊢
      simp only [heldAfter, List.foldl_cons, applyEv, removeHeld_two]
      exact ih resId nxt i hi

/-! ## Canonical description of built chains

`canonHeap vs` spells out, node by node, the heap that the builder
produces for the payload list `vs`: the sentinel at index 0 pointing at
index 1 (or at nothing when `vs` is empty), and the i-th payload at
index i, each node pointing at its successor.  `buildChain_eq` proves
that `buildChain` indeed produces this heap. -/

/-- The nodes of a canonical chain, starting at arena index `id`: each
node points at the next index, the last one at nothing. -/
def canonNodes (id : Nat) : List String → List Node
  | [] => []
  | v :: rest =>
    Node.mk v (match rest with | [] => none | _ :: _ => some (id + 1)) ::
      canonNodes (id + 1) rest

/-- The canonical heap for a payload list: sentinel plus canonical
nodes from index 1. -/
def canonHeap (vs : List String) : Heap :=
  Node.mk "" (match vs with | [] => none | _ :: _ => some 1) ::
    canonNodes 1 vs

theorem canonNodes_length (vs : List String) :
    ∀ id, (canonNodes id vs).length = vs.length := by
  induction vs with
  | nil => intro id; simp [canonNodes]
  | cons v rest ih => intro id; simp [canonNodes, ih]

theorem canonHeap_length (vs : List String) :
    (canonHeap vs).length = vs.length + 1 := by
  simp [canonHeap, canonNodes_length]

theorem canonNodes_get? (vs : List String) :
    ∀ id j, (canonNodes id vs).get? j =
      (vs.get? j).map (fun v =>
        Node.mk v (if j + 1 < vs.length then some (id + j + 1) else none)) := by
  induction vs with
  | nil =>
    intro id j
    simp [canonNodes]
  | cons v rest ih =>
    intro id j
    cases j with
    | zero =>
      cases rest with
      | nil => simp [canonNodes]
      | cons w ws => simp [canonNodes]
    | succ j =>
      simp only [canonNodes, List.get?_cons_succ, ih (id + 1) j,
        List.length_cons]
      cases hrj : rest.get? j with
      | none => simp
      | some w =>
        by_cases hlt : j + 1 < rest.length
        · have hlt2 : j + 1 + 1 < rest.length + 1 := by omega
          have harith : id + 1 + j + 1 = id + (j + 1) + 1 := by omega
          simp [hlt, hlt2, harith]
        · have hlt2 : ¬ (j + 1 + 1 < rest.length + 1) := by omega
          simp [hlt, hlt2]

theorem canon_getNext (vs : List String) (j : Nat) (hj : j ≤ vs.length) :
    getNext (canonHeap vs) j =
      if j + 1 ≤ vs.length then some (j + 1) else none := by
  cases j with
  | zero =>
    cases vs with
    | nil => simp [canonHeap, getNext]
    | cons v rest => simp [canonHeap, getNext]
  | succ j =>
    have hj' : j < vs.length := by omega
    simp only [canonHeap, getNext, List.get?_cons_succ, canonNodes_get?]
    cases hvj : vs.get? j with
    | none =>
      exact absurd (List.get?_eq_none.mp hvj) (by omega)
    | some v =>
      by_cases hlt : j + 1 < vs.length
      · have hlt2 : j + 1 + 1 ≤ vs.length := by omega
        have hcomm : 1 + j = j + 1 := by omega
        simp [hlt, hlt2, Option.bind, hcomm]
      · have hlt2 : ¬ (j + 1 + 1 ≤ vs.length) := by omega
        simp [hlt, hlt2, Option.bind]

theorem findTail_canon (vs : List String) :
    ∀ fuel j, j ≤ vs.length → vs.length ≤ j + fuel →
      findTail (canonHeap vs) fuel j = vs.length := by
  intro fuel
  induction fuel with
  | zero =>
    intro j h1 h2
    have hj : j = vs.length := by omega
    simp [findTail, hj]
  | succ f ih =>
    intro j h1 h2
    by_cases hlt : j + 1 ≤ vs.length
    · rw [findTail, canon_getNext vs j h1, if_pos hlt]
      exact ih (j + 1) hlt (by omega)
    · have hj : j = vs.length := by omega
      rw [findTail, canon_getNext vs j h1, if_neg hlt]
      exact hj

theorem canonNodes_snoc (us : List String) :
    us ≠ [] → ∀ id v,
      modifyNode (canonNodes id us) (us.length - 1)
          (fun nd => Node.mk nd.element (some (id + us.length))) ++
        [Node.mk v none] = canonNodes id (us ++ [v]) := by
  induction us with
  | nil => intro hne; exact absurd rfl hne
  | cons u us' ih =>
    intro _ id v
    cases us' with
    | nil =>
      simp [canonNodes, modifyNode]
    | cons w ws =>
      have hstep := ih (by simp) (id + 1) v
      have h1 : canonNodes id (u :: w :: ws) =
          Node.mk u (some (id + 1)) :: canonNodes (id + 1) (w :: ws) := rfl
      have h2 : canonNodes id ((u :: w :: ws) ++ [v]) =
          Node.mk u (some (id + 1)) ::
            canonNodes (id + 1) ((w :: ws) ++ [v]) := rfl
      rw [h1, h2]
      have h3 : modifyNode
          (Node.mk u (some (id + 1)) :: canonNodes (id + 1) (w :: ws))
          ((u :: w :: ws).length - 1)
          (fun nd => Node.mk nd.element (some (id + (u :: w :: ws).length))) =
          Node.mk u (some (id + 1)) ::
            modifyNode (canonNodes (id + 1) (w :: ws)) ((w :: ws).length - 1)
              (fun nd =>
                Node.mk nd.element (some (id + (u :: w :: ws).length))) := rfl
      rw [h3]
      have h4 : id + (u :: w :: ws).length = id + 1 + (w :: ws).length := by
        simp only [List.length_cons]
        omega
      rw [h4, List.cons_append, ← hstep]

theorem list_add_canon (us : List String) (v : String) :
    list_add (canonHeap us) v = canonHeap (us ++ [v]) := by
  have hft : findTail (canonHeap us) (canonHeap us).length 0 = us.length := by
    rw [canonHeap_length]
    exact findTail_canon us (us.length + 1) 0 (by omega) (by omega)
  cases us with
  | nil =>
    simp [list_add, canonHeap, canonNodes, findTail, getNext, modifyNode]
  | cons u us' =>
    rw [list_add, hft]
    have hsnoc := canonNodes_snoc (u :: us') (by simp) 1 v
    have h1 : canonHeap (u :: us') =
        Node.mk "" (some 1) :: canonNodes 1 (u :: us') := rfl
    have h2 : canonHeap ((u :: us') ++ [v]) =
        Node.mk "" (some 1) :: canonNodes 1 ((u :: us') ++ [v]) := rfl
    rw [canonHeap_length, h1, h2]
    have h3 : modifyNode
        (Node.mk "" (some 1) :: canonNodes 1 (u :: us'))
        ((u :: us').length)
        (fun nd => Node.mk nd.element (some ((u :: us').length + 1))) =
        Node.mk "" (some 1) ::
          modifyNode (canonNodes 1 (u :: us')) ((u :: us').length - 1)
            (fun nd =>
              Node.mk nd.element (some ((u :: us').length + 1))) := rfl
    rw [h3]
    have h4 : (u :: us').length + 1 = 1 + (u :: us').length := by omega
    rw [h4, List.cons_append, ← hsnoc]

theorem foldl_list_add_canon (vs : List String) :
    ∀ us, List.foldl list_add (canonHeap us) vs = canonHeap (us ++ vs) := by
  induction vs with
  | nil => intro us; simp
  | cons v vs ih =>
    intro us
    simp only [List.foldl_cons]
    rw [list_add_canon, ih (us ++ [v])]
    simp

theorem buildChain_eq (vs : List String) : buildChain vs = canonHeap vs := by
  have h0 : buildChain vs = List.foldl list_add (canonHeap []) vs := rfl
  rw [h0, foldl_list_add_canon vs []]
  simp

/-! ## Result of the traversal on canonical chains -/

theorem walk_canon_ok (vs : List String) :
    ∀ steps cur, cur + 1 + steps ≤ vs.length →
      (walk (canonHeap vs) cur (cur + 1) steps).2 =
        Except.ok (cur + 1 + steps) := by
  intro steps
  induction steps with
  | zero => intro cur _; simp [walk]
  | succ s ih =>
    intro cur hcur
    have hnext : getNext (canonHeap vs) (cur + 1) = some (cur + 2) := by
      rw [canon_getNext vs (cur + 1) (by omega), if_pos (by omega)]
    simp only [walk, hnext]
    have := ih (cur + 1) (by omega)
    have harith : cur + 1 + 1 + s = cur + 1 + (s + 1) := by omega
    rw [harith] at this
    exact this

theorem walk_canon_err (vs : List String) :
    ∀ steps cur, cur + 1 ≤ vs.length → vs.length < cur + 1 + steps →
      (walk (canonHeap vs) cur (cur + 1) steps).2 =
        Except.error Err.indexOutOfRange := by
  intro steps
  induction steps with
  | zero =>
    intro cur h1 h2
    omega
  | succ s ih =>
    intro cur h1 h2
    by_cases hlt : cur + 1 + 1 ≤ vs.length
    · have hnext : getNext (canonHeap vs) (cur + 1) = some (cur + 2) := by
        rw [canon_getNext vs (cur + 1) (by omega), if_pos (by omega)]
      simp only [walk, hnext]
      exact ih (cur + 1) hlt (by omega)
    · have hnext : getNext (canonHeap vs) (cur + 1) = none := by
        rw [canon_getNext vs (cur + 1) (by omega), if_neg (by omega)]
      simp [walk, hnext]

/-! ## Unfolding lemmas for the main branch of lookup -/

theorem lookup_trace_walk (h : Heap) (n : Nat) (hd : Option Nat) (first : Nat)
    (hg : getNext h 0 = some first) (hc : ¬ (n = 0 ∨ hd.isSome = true)) :
    (lookup h n hd).trace =
      Ev.acqS 0 :: Ev.readNext 0 :: (walk h 0 first (n - 1)).1 := by
  simp only [lookup, hg]
  rw [if_neg hc]
  cases hw : (walk h 0 first (n - 1)).2 with
  | ok i => simp
  | error e => simp

theorem lookup_res_walk (h : Heap) (n : Nat) (hd : Option Nat) (first : Nat)
    (hg : getNext h 0 = some first) (hc : ¬ (n = 0 ∨ hd.isSome = true)) :
    (lookup h n hd).res = (walk h 0 first (n - 1)).2 := by
  simp only [lookup, hg]
  rw [if_neg hc]
  cases hw : (walk h 0 first (n - 1)).2 with
  | ok i => simp
  | error e => simp

/-! ## The claims -/

/-- Claim C1: for every chain built by appending the payloads of `vs`
in order, and every index `i` between 1 and the length of `vs`,
calling `lookup` with an empty lock handle returns the i-th node (the
node whose payload is the i-th value of `vs`), and on return the
caller handle holds exactly that node lock, exclusively.  The final
conjunct identifies the payload of the returned node with the i-th
value of `vs`. -/
theorem lookup_correct_element (vs : List String) (i : Nat)
    (h1 : 1 ≤ i) (h2 : i ≤ vs.length) :
    (lookup (buildChain vs) i none).res = Except.ok i ∧
    (lookup (buildChain vs) i none).lockOut = some i ∧
    heldAfter [] (lookup (buildChain vs) i none).trace = [(i, true)] ∧
    ((buildChain vs).get? i).map Node.element = vs.get? (i - 1) := by
  rw [buildChain_eq]
  have hg0 : getNext (canonHeap vs) 0 = some 1 := by
    rw [canon_getNext vs 0 (by omega), if_pos (by omega)]
  have hw : (walk (canonHeap vs) 0 1 (i - 1)).2 = Except.ok i := by
    have h := walk_canon_ok vs (i - 1) 0 (by omega)
    have e2 : 0 + 1 + (i - 1) = i := by omega
    rw [e2] at h
    exact h
  have hpay : ((canonHeap vs).get? i).map Node.element = vs.get? (i - 1) := by
    obtain ⟨j, rfl⟩ : ∃ j, i = j + 1 := ⟨i - 1, by omega⟩
    simp only [canonHeap, List.get?_cons_succ, canonNodes_get?,
      Nat.add_sub_cancel]
    cases hvj : vs.get? j with
    | none => simp
    | some v => simp
  have hcond : ¬ (i = 0 ∨ (none : Option Nat).isSome = true) := by
    rintro (hzero | hsome)
    · omega
    · simp at hsome
  simp only [lookup, hg0]
  rw [if_neg hcond]
  simp only [hw]
  refine ⟨trivial, trivial, ?_, hpay⟩
  simp only [heldAfter, List.foldl_cons, applyEv]
  exact walk_ok_held (canonHeap vs) (i - 1) 0 1 i hw

/-- Witness for C1 at the nine-word reference chain: `lookup 6`
returns node 6, whose payload is "over". -/
theorem lookup_correct_element_witness :
    1 ≤ 6 ∧ 6 ≤ nineWords.length ∧
    ((lookup (buildChain nineWords) 6 none).res = Except.ok 6 ∧
     (lookup (buildChain nineWords) 6 none).lockOut = some 6 ∧
     heldAfter [] (lookup (buildChain nineWords) 6 none).trace = [(6, true)] ∧
     ((buildChain nineWords).get? 6).map Node.element = nineWords.get? 5) ∧
    nineWords.get? 5 = some "over" :=
  ⟨by decide, by decide,
    lookup_correct_element nineWords 6 (by decide) (by decide), rfl⟩

/-- Claim C2: on every lookup over a non-empty chain, each read of the
`next` field of a node happens while that node lock is held by the
call (`chkReads`), and a shared lock on a node is only dropped while a
lock on its successor is already held, except for the final release
that ends the call — the two held-lock regions always overlap
(`chkOverlap`). -/
theorem lookup_hand_over_hand (h : Heap) (n : Nat) (hd : Option Nat)
    (hne : getNext h 0 ≠ none) :
    chkReads [] (lookup h n hd).trace = true ∧
    chkOverlap h [] (lookup h n hd).trace = true := by
  cases hg : getNext h 0 with
  | none => exact absurd hg hne
  | some first =>
    by_cases hc : n = 0 ∨ hd.isSome = true
    · constructor
      · simp [lookup, hg, hc, chkReads, applyEv]
      · simp [lookup, hg, hc, chkOverlap, applyEv]
    · have htr := lookup_trace_walk h n hd first hg hc
      rw [htr]
      constructor
      · simp [chkReads, applyEv, walk_chkReads h (n - 1) 0 first]
      · simp [chkOverlap, applyEv, walk_chkOverlap h (n - 1) 0 first hg]

/-- Witness for C2 on a concrete two-element chain. -/
theorem lookup_hand_over_hand_witness :
    getNext (buildChain ["a", "b"]) 0 ≠ none ∧
    (chkReads [] (lookup (buildChain ["a", "b"]) 2 none).trace = true ∧
     chkOverlap (buildChain ["a", "b"]) []
       (lookup (buildChain ["a", "b"]) 2 none).trace = true) :=
  ⟨by decide, lookup_hand_over_hand (buildChain ["a", "b"]) 2 none (by decide)⟩

/-- Claim C3: during any single lookup call, at most two locks are
held at any point (`chkAtMostTwo`); from the acquisition of the
sentinel shared lock onwards at least one lock is held after every
event except the final release of a failing call (`chkCover`), and a
successful call still holds a lock when it returns. -/
theorem lookup_lock_bounds (h : Heap) (n : Nat) (hd : Option Nat) :
    chkAtMostTwo [] (lookup h n hd).trace = true ∧
    chkCover [] (lookup h n hd).trace = true ∧
    (resOk (lookup h n hd).res = true →
      heldAfter [] (lookup h n hd).trace ≠ []) := by
  cases hg : getNext h 0 with
  | none =>
    refine ⟨?_, ?_, ?_⟩ <;>
      simp [lookup, hg, chkAtMostTwo, chkCover, applyEv, removeHeld,
        heldAfter, resOk]
  | some first =>
    by_cases hc : n = 0 ∨ hd.isSome = true
    · refine ⟨?_, ?_, ?_⟩ <;>
        simp [lookup, hg, hc, chkAtMostTwo, chkCover, applyEv, removeHeld,
          heldAfter, resOk]
    · have htr := lookup_trace_walk h n hd first hg hc
      have hres := lookup_res_walk h n hd first hg hc
      refine ⟨?_, ?_, ?_⟩
      · rw [htr]
        simp [chkAtMostTwo, applyEv, walk_chkAtMostTwo h (n - 1) 0 first]
      · rw [htr]
        simp [chkCover, applyEv, walk_chkCover h (n - 1) 0 first]
      · intro hok
        rw [hres] at hok
        cases hw : (walk h 0 first (n - 1)).2 with
        | error e =>
          rw [hw] at hok
          simp [resOk] at hok
        | ok i =>
          rw [htr]
          have hh := walk_ok_held h (n - 1) 0 first i hw
          simp only [heldAfter, List.foldl_cons, applyEv] at hh ⊢
          rw [hh]
          simp

/-- Witness for C3 on a concrete chain. -/
theorem lookup_lock_bounds_witness :
    chkAtMostTwo [] (lookup (buildChain ["a", "b", "c"]) 3 none).trace = true ∧
    chkCover [] (lookup (buildChain ["a", "b", "c"]) 3 none).trace = true ∧
    (resOk (lookup (buildChain ["a", "b", "c"]) 3 none).res = true →
      heldAfter [] (lookup (buildChain ["a", "b", "c"]) 3 none).trace ≠ []) :=
  lookup_lock_bounds (buildChain ["a", "b", "c"]) 3 none

/-- Claim C4: on a chain of length k at least 1, with an empty lock
handle, `lookup 0` fails with `invalidIndex`, `lookup (k+1)` fails
with `indexOutOfRange` (the traversal runs off the end of the chain),
and in both cases no lock is held after the call and the caller handle
is untouched. -/
theorem lookup_bounds_errors (vs : List String) (hk : 1 ≤ vs.length) :
    (lookup (buildChain vs) 0 none).res = Except.error Err.invalidIndex ∧
    heldAfter [] (lookup (buildChain vs) 0 none).trace = [] ∧
    (lookup (buildChain vs) 0 none).lockOut = none ∧
    (lookup (buildChain vs) (vs.length + 1) none).res =
      Except.error Err.indexOutOfRange ∧
    heldAfter [] (lookup (buildChain vs) (vs.length + 1) none).trace = [] ∧
    (lookup (buildChain vs) (vs.length + 1) none).lockOut = none := by
  rw [buildChain_eq]
  have hg0 : getNext (canonHeap vs) 0 = some 1 := by
    rw [canon_getNext vs 0 (by omega), if_pos (by omega)]
  have hw : (walk (canonHeap vs) 0 1 vs.length).2 =
      Except.error Err.indexOutOfRange :=
    walk_canon_err vs vs.length 0 (by omega) (by omega)
  have hcond : ¬ (vs.length + 1 = 0 ∨ (none : Option Nat).isSome = true) := by
    rintro (hzero | hsome)
    · omega
    · simp at hsome
  refine ⟨?_, ?_, ?_, ?_, ?_, ?_⟩
  · simp [lookup, hg0]
  · simp [lookup, hg0, heldAfter, applyEv, removeHeld]
  · simp [lookup, hg0]
  · simp only [lookup, hg0]
    rw [if_neg hcond]
    simp only [Nat.add_sub_cancel, hw]
  · simp only [lookup, hg0]
    rw [if_neg hcond]
    simp only [Nat.add_sub_cancel, hw]
    simp only [heldAfter, List.foldl_cons, applyEv]
    exact walk_err_held (canonHeap vs) vs.length 0 1 Err.indexOutOfRange hw
  · simp only [lookup, hg0]
    rw [if_neg hcond]
    simp only [Nat.add_sub_cancel, hw]

/-- Witness for C4 on a one-element chain. -/
theorem lookup_bounds_errors_witness :
    1 ≤ (["a"] : List String).length ∧
    ((lookup (buildChain ["a"]) 0 none).res =
        Except.error Err.invalidIndex ∧
     heldAfter [] (lookup (buildChain ["a"]) 0 none).trace = [] ∧
     (lookup (buildChain ["a"]) 0 none).lockOut = none ∧
     (lookup (buildChain ["a"]) 2 none).res =
        Except.error Err.indexOutOfRange ∧
     heldAfter [] (lookup (buildChain ["a"]) 2 none).trace = [] ∧
     (lookup (buildChain ["a"]) 2 none).lockOut = none) :=
  ⟨by decide, lookup_bounds_errors ["a"] (by decide)⟩

/-- Counterexample to C5 as stated: on a non-empty chain, a call with
an already-owning handle does fail with `invalidIndex`, but it is not
true that the call acquires no lock: its trace contains a shared
acquisition of the sentinel lock, performed before the precondition
check. -/
theorem lookup_reentrancy_counterexample :
    (lookup (buildChain ["a"]) 1 (some 5)).res =
      Except.error Err.invalidIndex ∧
    Ev.acqS 0 ∈ (lookup (buildChain ["a"]) 1 (some 5)).trace := by
  constructor
  · rfl
  · have ht : (lookup (buildChain ["a"]) 1 (some 5)).trace =
        [Ev.acqS 0, Ev.readNext 0, Ev.relS 0] := rfl
    rw [ht]
    exact List.mem_cons_self _ _

/-- Claim C5 as amended: on a non-empty chain, a call whose lock
handle already owns a lock fails with `invalidIndex`; the only lock
acquired is the sentinel shared lock, taken before the precondition
check and released before the error propagates, so that no lock
remains held after the call and the caller handle is not modified. -/
theorem lookup_reentrancy_guard (h : Heap) (n : Nat) (hd : Option Nat)
    (hne : getNext h 0 ≠ none) (hh : hd.isSome = true) :
    (lookup h n hd).res = Except.error Err.invalidIndex ∧
    (lookup h n hd).trace = [Ev.acqS 0, Ev.readNext 0, Ev.relS 0] ∧
    (lookup h n hd).lockOut = hd ∧
    heldAfter [] (lookup h n hd).trace = [] := by
  cases hg : getNext h 0 with
  | none => exact absurd hg hne
  | some first =>
    have hc : n = 0 ∨ hd.isSome = true := Or.inr hh
    refine ⟨?_, ?_, ?_, ?_⟩ <;>
      simp [lookup, hg, hc, heldAfter, applyEv, removeHeld]

/-- Witness for the amended C5 on a concrete chain. -/
theorem lookup_reentrancy_guard_witness :
    getNext (buildChain ["a"]) 0 ≠ none ∧
    (some 5 : Option Nat).isSome = true ∧
    ((lookup (buildChain ["a"]) 3 (some 5)).res =
        Except.error Err.invalidIndex ∧
     (lookup (buildChain ["a"]) 3 (some 5)).trace =
        [Ev.acqS 0, Ev.readNext 0, Ev.relS 0] ∧
     (lookup (buildChain ["a"]) 3 (some 5)).lockOut = some 5 ∧
     heldAfter [] (lookup (buildChain ["a"]) 3 (some 5)).trace = []) :=
  ⟨by decide, rfl,
    lookup_reentrancy_guard (buildChain ["a"]) 3 (some 5) (by decide) rfl⟩

/-- Claim C6: on every failing path of lookup, every lock acquired
during the call has been released by the end of the trace, and the
caller handle is unchanged. -/
theorem lookup_failure_releases_locks (h : Heap) (n : Nat) (hd : Option Nat)
    (e : Err) (he : (lookup h n hd).res = Except.error e) :
    heldAfter [] (lookup h n hd).trace = [] ∧
    (lookup h n hd).lockOut = hd := by
  cases hg : getNext h 0 with
  | none =>
    constructor <;> simp [lookup, hg, heldAfter, applyEv, removeHeld]
  | some first =>
    by_cases hc : n = 0 ∨ hd.isSome = true
    · constructor <;> simp [lookup, hg, hc, heldAfter, applyEv, removeHeld]
    · cases hw : (walk h 0 first (n - 1)).2 with
      | ok i =>
        rw [lookup_res_walk h n hd first hg hc, hw] at he
        exact absurd he (by simp)
      | error e' =>
        have htr := lookup_trace_walk h n hd first hg hc
        have hlo : (lookup h n hd).lockOut = hd := by
          simp only [lookup, hg]
          rw [if_neg hc]
          simp [hw]
        refine ⟨?_, hlo⟩
        rw [htr]
        simp only [heldAfter, List.foldl_cons, applyEv]
        exact walk_err_held h (n - 1) 0 first e' hw

/-- Witness for C6 at the empty-chain failure. -/
theorem lookup_failure_releases_locks_witness :
    (lookup (buildChain []) 1 none).res = Except.error Err.emptyChain ∧
    (heldAfter [] (lookup (buildChain []) 1 none).trace = [] ∧
     (lookup (buildChain []) 1 none).lockOut = none) :=
  ⟨rfl, lookup_failure_releases_locks (buildChain []) 1 none Err.emptyChain rfl⟩

/-- Claim C7: on a chain with no real element (the sentinel successor
is null), lookup fails with `emptyChain` whatever the index and the
state of the lock handle. -/
theorem lookup_empty_chain_fails (h : Heap) (n : Nat) (hd : Option Nat)
    (he : getNext h 0 = none) :
    (lookup h n hd).res = Except.error Err.emptyChain := by
  simp [lookup, he]

/-- Witness for C7 on the freshly built empty chain. -/
theorem lookup_empty_chain_fails_witness :
    getNext (buildChain []) 0 = none ∧
    (lookup (buildChain []) 7 (some 3)).res = Except.error Err.emptyChain :=
  ⟨rfl, lookup_empty_chain_fails (buildChain []) 7 (some 3) rfl⟩

/-- Claim C8: a lookup call, whether it succeeds or fails, leaves the
chain untouched: the heap after the call is the heap before it (node
count, order, payloads and next links included); only the caller
handle and the lock states change.  This mirrors the source, whose
`lookup` body contains no store to any node field. -/
theorem lookup_preserves_structure (h : Heap) (n : Nat) (hd : Option Nat) :
    (lookup h n hd).heap = h := by
  cases hg : getNext h 0 with
  | none => simp [lookup, hg]
  | some first =>
    by_cases hc : n = 0 ∨ hd.isSome = true
    · simp [lookup, hg, hc]
    · simp only [lookup, hg]
      rw [if_neg hc]
      cases hw : (walk h 0 first (n - 1)).2 <;> simp

/-- Counterexample to C9 as stated: the serial counter is a 32-bit
unsigned integer and wraps, so serial numbers are not monotonically
increasing over all construction sequences: the lock constructed at
position 2 to the power 32 receives serial 0 again. -/
theorem serial_wrap_counterexample :
    ¬ (∀ i j : Nat, i < j → serialNum i < serialNum j) := by
  intro hmono
  have h := hmono 0 (2 ^ 32) (by norm_num)
  have h1 : serialNum (2 ^ 32) = 0 := by
    simp [serialNum]
  have h0 : serialNum 0 = 0 := rfl
  omega

/-- Claim C9 as amended: each lock constructed receives its serial
from the single process-wide counter, and as long as fewer than
2 to the power 32 locks are constructed in the process the serials
are pairwise distinct and monotonically increasing in construction
order. -/
theorem serial_distinct_monotone (i j : Nat) (hij : i < j)
    (hj : j < 2 ^ 32) :
    serialNum i ≠ serialNum j ∧ serialNum i < serialNum j := by
  have hi : serialNum i = i := Nat.mod_eq_of_lt (by omega)
  have hjv : serialNum j = j := Nat.mod_eq_of_lt hj
  constructor
  · rw [hi, hjv]
    omega
  · rw [hi, hjv]
    exact hij

/-- Witness for the amended C9 at the first two constructions. -/
theorem serial_distinct_monotone_witness :
    0 < 1 ∧ 1 < 2 ^ 32 ∧
    (serialNum 0 ≠ serialNum 1 ∧ serialNum 0 < serialNum 1) :=
  ⟨by decide, by norm_num, serial_distinct_monotone 0 1 (by decide) (by norm_num)⟩

/-- Claim C10: the empty-chain check is performed before the argument
checks: on a chain with no real element, even a zero index or an
already-owning handle produces the `emptyChain` error, never
`invalidIndex`. -/
theorem lookup_empty_check_first (h : Heap) (n : Nat) (hd : Option Nat)
    (he : getNext h 0 = none) (_hbad : n = 0 ∨ hd.isSome = true) :
    (lookup h n hd).res = Except.error Err.emptyChain ∧
    (lookup h n hd).res ≠ Except.error Err.invalidIndex := by
  constructor
  · simp [lookup, he]
  · simp [lookup, he]

/-- Witness for C10 with a zero index and an owning handle on the
empty chain. -/
theorem lookup_empty_check_first_witness :
    getNext (buildChain []) 0 = none ∧
    ((0 : Nat) = 0 ∨ (some 1 : Option Nat).isSome = true) ∧
    ((lookup (buildChain []) 0 (some 1)).res =
        Except.error Err.emptyChain ∧
     (lookup (buildChain []) 0 (some 1)).res ≠
        Except.error Err.invalidIndex) :=
  ⟨rfl, Or.inl rfl,
    lookup_empty_check_first (buildChain []) 0 (some 1) rfl (Or.inl rfl)⟩

end HandOverHand
